import Mathlib

/-!
A shallow embedding of the music-theory core of the pakad webapp.

The engine lives in `server/index.js` and is duplicated verbatim in
`netlify/functions/api.js`; both copies are embedded once here.

Conventions used throughout:
* a JS 12-slot 0/1 pattern array becomes a `List Nat`;
* a truthiness test `pattern[i]` becomes `pattern.getD i 0 ≠ 0`
  (out-of-range indexing yields `undefined`, which is falsy, exactly the
  `getD` default `0`);
* a strict test `pattern[i] === 1` becomes `pattern.getD i 0 = 1`
  (out of range, `undefined === 1` is false, and so is `0 = 1`);
* a strict test `pattern[i] === 0` becomes `pattern.get? i = some 0`
  (out of range, `undefined === 0` is false, and so is `none = some 0`);
* the JS `%` operator on possibly negative integers is `Int.tmod`
  (truncated remainder, sign of the dividend).
-/

namespace Pakad

/-- Swar display names, `index.js` line 26. -/
def swarNames : List String :=
  ["Sa", "Re♭", "Re", "Ga♭", "Ga", "Ma", "Ma♯", "Pa", "Dha♭", "Dha", "Ni♭", "Ni"]

/-- Western note names with flat spellings, `index.js` line 27. -/
def westernNotesFlat : List String :=
  ["C", "D♭", "D", "E♭", "E", "F", "G♭", "G", "A♭", "A", "B♭", "B"]

/-- One entry of the `chordTypes` catalog, `index.js` lines 29-43. -/
structure ChordType where
  id : String
  name : String
  intervals : List Nat
  color : String
deriving DecidableEq

/-- The fixed chord-type catalog, `index.js` lines 29-43. -/
def chordTypes : List ChordType :=
  [⟨"major", "Major", [0, 4, 7], "#3b82f6"⟩,
   ⟨"minor", "Minor", [0, 3, 7], "#8b5cf6"⟩,
   ⟨"diminished", "Diminished", [0, 3, 6], "#ef4444"⟩,
   ⟨"sus4", "Sus4", [0, 5, 7], "#10b981"⟩,
   ⟨"augmented", "Augmented", [0, 4, 8], "#f97316"⟩,
   ⟨"major7", "Major 7", [0, 4, 7, 11], "#22c55e"⟩,
   ⟨"minor7", "Minor 7", [0, 3, 7, 10], "#06b6d4"⟩,
   ⟨"dom7", "Dominant 7", [0, 4, 7, 10], "#eab308"⟩,
   ⟨"sus2", "Sus2", [0, 2, 7], "#14b8a6"⟩,
   ⟨"dim7", "Diminished 7", [0, 3, 6, 9], "#db2777"⟩,
   ⟨"maj6", "Major 6", [0, 4, 7, 9], "#a3e635"⟩,
   ⟨"min6", "Minor 6", [0, 3, 7, 9], "#f43f5e"⟩,
   ⟨"m7b5", "Half-diminished (m7♭5)", [0, 3, 6, 10], "#0ea5e9"⟩]

/-- `Math.max(...l)` for the nonempty natural-number lists the code applies
it to (interval lists of at least 3 elements): a fold from `0` agrees with
the JS maximum because all elements are nonnegative. -/
def listMax (l : List Nat) : Nat := l.foldl max 0

/-- `getExtendedIntervals`, `index.js` lines 96-102. -/
def getExtendedIntervals (baseIntervals : List Nat) (extend : Bool) : List Nat :=
  if extend = false ∨ baseIntervals.length < 3 then baseIntervals
  else baseIntervals ++ [(listMax baseIntervals + 3) % 12]

/-- The record pushed on an accepted (template, root) pair,
`index.js` line 116. -/
structure MatchedChord where
  root : Nat
  rootName : String
  notes : List Nat
  type : ChordType
  isExtended : Bool
deriving DecidableEq

/-- The body of the root loop in `availableChordsForPattern`,
`index.js` lines 110-118: `none` when the root is skipped (root pitch class
absent) or some transposed note is missing from the pattern, otherwise the
emitted `MatchedChord`. -/
def matchAtRoot (pattern : List Nat) (extend : Bool) (ct : ChordType)
    (root : Nat) : Option MatchedChord :=
  if pattern.getD root 0 ≠ 0 then
    let intervals := getExtendedIntervals ct.intervals extend
    let notes := intervals.map (fun x => (root + x) % 12)
    if notes.all (fun n => pattern.getD n 0 != 0) then
      some ⟨root, swarNames.getD root "", notes, ct,
            extend && decide (intervals.length > ct.intervals.length)⟩
    else none
  else none

/-- The template list selected by the `chordId` filter,
`index.js` lines 106-108 (`'all'` or a falsy id selects the whole
catalog; the only falsy string is the empty one). -/
def typesForFilter (chordId : String) : List ChordType :=
  if chordId = "all" ∨ chordId = "" then chordTypes
  else chordTypes.filter (fun c => c.id == chordId)

/-- `availableChordsForPattern`, `index.js` lines 104-121. -/
def availableChordsForPattern (pattern : List Nat) (chordId : String)
    (extend : Bool) : List MatchedChord :=
  (typesForFilter chordId).flatMap
    (fun ct => (List.range 12).filterMap (matchAtRoot pattern extend ct))

/-- A chord as returned by `attachWesternNames`: the original record plus
the optional `westernName` field, which is absent exactly when the tonic
was absent (the JS pass-through case returns the records untouched). -/
structure NamedChord where
  chord : MatchedChord
  westernName : Option String
deriving DecidableEq

/-- The quality-suffix chain of `attachWesternNames`, `index.js`
lines 135-150, with the template display name as the default case. -/
def qualityFor (ct : ChordType) : String :=
  if ct.id = "major" then ""
  else if ct.id = "minor" then "m"
  else if ct.id = "diminished" then "dim"
  else if ct.id = "augmented" then "aug"
  else if ct.id = "sus4" then "sus4"
  else if ct.id = "sus2" then "sus2"
  else if ct.id = "major7" then "maj7"
  else if ct.id = "minor7" then "m7"
  else if ct.id = "dom7" then "7"
  else if ct.id = "dim7" then "dim7"
  else if ct.id = "m7b5" then "m7♭5"
  else if ct.id = "maj6" then "6"
  else if ct.id = "min6" then "m6"
  else ct.name

/-- `attachWesternNames`, `index.js` lines 130-154.  A missing/null tonic
passes the chord list through unchanged (no `westernName` attached). -/
def attachWesternNames (chords : List MatchedChord) (tonicIndex : Option Nat) :
    List NamedChord :=
  match tonicIndex with
  | none => chords.map (fun c => ⟨c, none⟩)
  | some t => chords.map (fun chord =>
      let rootNote := westernNotesFlat.getD ((chord.root + t) % 12) ""
      let quality := qualityFor chord.type
      let westernChordNotes :=
        chord.notes.map (fun n => westernNotesFlat.getD ((n + t) % 12) "")
      ⟨chord, some (rootNote ++ quality ++ ": " ++
                    String.intercalate " - " westernChordNotes)⟩)

/-- `filterChordsByNote`, `index.js` lines 123-128.  `selectedNote` is the
integer produced upstream by `parseInt` (so possibly negative or above 11);
`none` models the `undefined`/`null` pass-through case.  Every mode string
other than `'any'` falls into the default `'root'` branch. -/
def filterChordsByNote (chords : List MatchedChord) (selectedNote : Option Int)
    (mode : String) : List MatchedChord :=
  match selectedNote with
  | none => chords
  | some sel =>
    if mode = "any" then
      chords.filter (fun c => c.notes.any (fun n => (n : Int) == sel))
    else
      chords.filter (fun c => (c.root : Int) == sel)

/-- A JSON value appearing in the `intervalsAbs` request array: either an
integer or a non-numeric value (any JS value whose arithmetic gives `NaN`,
represented here by a string). -/
inductive JVal where
  | num (v : Int)
  | str (s : String)
deriving DecidableEq

/-- JS `((v % 12) + 12) % 12` for an integer `v`, `index.js` line 203.
JS `%` is the truncated remainder, i.e. `Int.tmod`; the `+ 12` and the
outer `% 12` land the result in `[0, 12)`, so the value is a `Nat`. -/
def normalizePc (v : Int) : Nat := ((Int.tmod v 12 + 12) % 12).toNat

/-- Normalization of one `intervalsAbs` entry, `index.js` line 203: a
non-numeric entry propagates `NaN` through `%` and `+`, modelled `none`. -/
def jsNormalizePc : JVal → Option Nat
  | .num v => some (normalizePc v)
  | .str _ => none

/-- A record pushed by the custom matcher, `index.js` line 212.  The note
entries stay `Option` because a `NaN` interval makes `NaN` notes; such a
root is never accepted, so pushed records only ever hold `some` notes. -/
structure CustomMatch where
  root : Nat
  rootName : String
  notes : List (Option Nat)
deriving DecidableEq

/-- The truthiness test `pattern[i]` applied to a possibly-`NaN` note
index: a `NaN` index reads `undefined`, which is falsy. -/
def noteOk (pattern : List Nat) : Option Nat → Bool
  | some n => pattern.getD n 0 != 0
  | none => false

/-- The `findMatches` closure of the custom-matches route, `index.js`
lines 207-216: all 12 roots are tried, with no requirement that the root
pitch class itself be present in the pattern; a root is accepted iff every
transposed note is present (`pattern[NaN]` is `undefined`, falsy). -/
def customFindMatches (pattern : List Nat) (pcs : List (Option Nat)) :
    List CustomMatch :=
  (List.range 12).filterMap (fun root =>
    let notes := pcs.map (fun iv => iv.map (fun x => (root + x) % 12))
    if notes.all (noteOk pattern) then
      some ⟨root, swarNames.getD root "", notes⟩
    else none)

/-- The three per-pattern result lists of the custom-matches route,
`index.js` lines 217-221. -/
structure CustomResult where
  aaroh : List CustomMatch
  avroh : List CustomMatch
  all : List CustomMatch
deriving DecidableEq

/-- A parsed raga record (the shape produced by `parseAarohAvrohCSV`,
`index.js` lines 73-78): `notePattern` is the combined pattern. -/
structure Raga where
  name : String
  notePattern : List Nat
  aarohPattern : List Nat
  avrohPattern : List Nat
deriving DecidableEq

/-- The custom-matches route body for a found raga, `index.js`
lines 198-222.  `intervalsAbs = none` models a request body whose
`intervalsAbs` is absent or not an array (`Array.isArray` fails); an empty
array is likewise rejected with the 400 `intervalsAbs required` error.
No numeric check is performed on the entries. -/
def customMatchesRoute : Raga → Option (List JVal) → Except String CustomResult
  | _, none => .error "intervalsAbs required"
  | r, some l =>
    if l.length = 0 then .error "intervalsAbs required"
    else
      let pcs := l.map jsNormalizePc
      .ok ⟨customFindMatches r.aarohPattern pcs,
           customFindMatches r.avrohPattern pcs,
           customFindMatches r.notePattern pcs⟩

/-- The `exactMatch` helper of the raga-search route (`api.js`
lines 205-208, server copy lines 266-270):
`pattern.every((val, idx) => val === (withSa.has(idx) ? 1 : 0))` with
`withSa = includeSet ∪ {0}`.  A JS `Set` is modelled as the list of its
elements; only membership is ever used. -/
def exactMatch (pattern : List Nat) (includeSet : List Nat) : Bool :=
  pattern.enum.all (fun p => p.2 == if p.1 = 0 ∨ p.1 ∈ includeSet then 1 else 0)

/-- The combined-mode (`separate=false`) inclusion filter of the
raga-search route (`api.js` lines 234-240, server copy lines 305-313): a
non-empty include set is applied in exact or contains mode, the tonic 0
always added to the contains check. -/
def includeStageCombined (ragas : List Raga) (searchMode : String)
    (selectedSet : List Nat) : List Raga :=
  if selectedSet.length > 0 then
    if searchMode = "exact" then
      ragas.filter (fun r => exactMatch r.notePattern selectedSet)
    else
      ragas.filter (fun r =>
        (0 :: selectedSet).all (fun i => r.notePattern.getD i 0 == 1))
  else ragas

/-- The full combined-mode pitch-class stage of the raga-search route
(`api.js` lines 233-245, server copy lines 303-318): the inclusion filter
followed by the exclusion filter `arr.every(i => r.notePattern[i] === 0)`
for a non-empty exclude set — applied in either search mode. -/
def combinedNoteStage (ragas : List Raga) (searchMode : String)
    (selectedSet excludedSet : List Nat) : List Raga :=
  if excludedSet.length > 0 then
    (includeStageCombined ragas searchMode selectedSet).filter (fun r =>
      excludedSet.all (fun i => r.notePattern.get? i == some 0))
  else includeStageCombined ragas searchMode selectedSet

/-- One template step of the aggregates accumulation, `index.js`
lines 235-239: run the matcher for that template id alone and add the
non-extended and extended match counts to the accumulator. -/
def aggregateStep (pattern : List Nat) (extend : Bool) (acc : Nat × Nat)
    (ct : ChordType) : Nat × Nat :=
  let arr := availableChordsForPattern pattern ct.id extend
  (acc.1 + (arr.filter (fun c => !c.isExtended)).length,
   acc.2 + (arr.filter (fun c => c.isExtended)).length)

/-- The aggregates route accumulation, `index.js` lines 232-240:
`separate` selects the two directional patterns, otherwise the single
combined pattern; per part and per catalog template the matcher runs and
the counts are summed into `(basic, extended)`. -/
def aggregatesRoute (r : Raga) (separate extend : Bool) : Nat × Nat :=
  let parts := if separate then [r.aarohPattern, r.avrohPattern]
               else [r.notePattern]
  parts.foldl (fun acc p => chordTypes.foldl (aggregateStep p extend) acc) (0, 0)

/-- Position of a template in the catalog, used to state the emission
order of `availableChordsForPattern`. -/
def catalogIdx (ct : ChordType) : Nat := chordTypes.findIdx (fun c => c.id == ct.id)

/-- Emission order of the matcher: an earlier match comes from a template
earlier in the catalog, or from the same template with a smaller root. -/
def beforeInCatalog (a b : MatchedChord) : Prop :=
  catalogIdx a.type < catalogIdx b.type ∨ (a.type = b.type ∧ a.root < b.root)

/- Concrete inputs used by witnesses and counterexamples. -/

/-- The all-present pattern (a Bilaval-like raga with every chromatic
pitch class). -/
def onesPattern : List Nat := [1, 1, 1, 1, 1, 1, 1, 1, 1, 1, 1, 1]

/-- The major-pentatonic pattern, pitch classes `{0, 2, 4, 7, 9}`. -/
def pentPattern : List Nat := [1, 0, 1, 0, 1, 0, 0, 1, 0, 1, 0, 0]

/-- The pattern with exactly pitch classes `{0, 4, 7}`. -/
def pat047 : List Nat := [1, 0, 0, 0, 1, 0, 0, 1, 0, 0, 0, 0]

/-- The pattern with the single pitch class `{4}` (tonic absent). -/
def onlyGaPattern : List Nat := [0, 0, 0, 0, 1, 0, 0, 0, 0, 0, 0, 0]

/-- The first catalog template. -/
def majorType : ChordType := ⟨"major", "Major", [0, 4, 7], "#3b82f6"⟩

/-- The diminished-seventh catalog template. -/
def dim7Type : ChordType := ⟨"dim7", "Diminished 7", [0, 3, 6, 9], "#db2777"⟩

/-- The major triad on the tonic as the matcher emits it. -/
def triadAtSa : MatchedChord := ⟨0, "Sa", [0, 4, 7], majorType, false⟩

/-- The extended diminished-seventh chord on the tonic as the matcher
emits it: the synthesized interval `(9 + 3) % 12 = 0` duplicates the root. -/
def extendedDim7AtSa : MatchedChord := ⟨0, "Sa", [0, 3, 6, 9, 0], dim7Type, true⟩

/-- A template with an id outside the quality table, to exercise the
display-name fallback of `attachWesternNames`. -/
def weirdType : ChordType := ⟨"weird", "Weird", [0], "#000"⟩

/-- A chord of the unknown-id template. -/
def weirdChordAtSa : MatchedChord := ⟨0, "Sa", [0], weirdType, false⟩

/-- A raga whose three patterns are all `{0, 4, 7}`. -/
def testRaga047 : Raga := ⟨"R", pat047, pat047, pat047⟩

/-- A single-element raga list for the search counterexample. -/
def ragas047 : List Raga := [testRaga047]

/-- A raga whose three patterns are all-present. -/
def testRagaOnes : Raga := ⟨"Test", onesPattern, onesPattern, onesPattern⟩

/-! ### Helper lemmas about the matcher -/

/-- Inversion of one root-loop step: everything that is true of an
emitted record. -/
lemma matchAtRoot_eq_some {pattern : List Nat} {extend : Bool}
    {ct : ChordType} {root : Nat} {m : MatchedChord}
    (h : matchAtRoot pattern extend ct root = some m) :
    pattern.getD root 0 ≠ 0 ∧ m.root = root ∧ m.type = ct ∧
    m.notes = (getExtendedIntervals ct.intervals extend).map
      (fun x => (root + x) % 12) ∧
    (∀ n ∈ m.notes, pattern.getD n 0 ≠ 0) ∧
    m.isExtended = (extend && decide
      ((getExtendedIntervals ct.intervals extend).length > ct.intervals.length)) := by
  unfold matchAtRoot at h
  split at h
  · next hroot =>
    simp only at h
    split at h
    · next hall =>
      cases h
      refine ⟨hroot, rfl, rfl, rfl, ?_, rfl⟩
      intro n hn
      have hx := List.all_eq_true.mp hall n hn
      simpa using hx
    · exact absurd h (by simp)
  · exact absurd h (by simp)

/-- Membership in the matcher output, unfolded to a template of the
selected list and a root below 12. -/
lemma mem_availableChords {pattern : List Nat} {chordId : String}
    {extend : Bool} {m : MatchedChord} :
    m ∈ availableChordsForPattern pattern chordId extend ↔
      ∃ ct, ct ∈ typesForFilter chordId ∧
        ∃ root, root < 12 ∧ matchAtRoot pattern extend ct root = some m := by
  simp [availableChordsForPattern, List.mem_flatMap, List.mem_filterMap,
    List.mem_range]

/-- The selected template list is always drawn from the catalog. -/
lemma typesForFilter_mem {chordId : String} {ct : ChordType}
    (h : ct ∈ typesForFilter chordId) : ct ∈ chordTypes := by
  unfold typesForFilter at h
  split at h
  · exact h
  · exact List.mem_of_mem_filter h

/-- Catalog invariant: every template's interval list is duplicate-free
and lies in `[0, 11]`. -/
lemma catalog_intervals_ok :
    ∀ ct ∈ chordTypes, ct.intervals.Nodup ∧ ∀ i ∈ ct.intervals, i < 12 := by
  decide

/-- Without extension the interval list is used unchanged. -/
lemma getExtendedIntervals_false (l : List Nat) :
    getExtendedIntervals l false = l := by
  unfold getExtendedIntervals
  exact if_pos (Or.inl rfl)

/-- Transposition by a common root modulo 12 is injective on offsets
below 12. -/
lemma transpose_mod_inj {root x y : Nat} (hx : x < 12) (hy : y < 12)
    (h : (root + x) % 12 = (root + y) % 12) : x = y := by
  have hmod : x ≡ y [MOD 12] :=
    Nat.ModEq.add_left_cancel (Nat.ModEq.refl root) h
  have hxy : x % 12 = y % 12 := hmod
  rwa [Nat.mod_eq_of_lt hx, Nat.mod_eq_of_lt hy] at hxy

/-- Within one template, emitted matches carry that template and strictly
increasing roots, so they are ordered by `beforeInCatalog`. -/
lemma perTemplate_pairwise (pattern : List Nat) (extend : Bool)
    (ct : ChordType) :
    ((List.range 12).filterMap (matchAtRoot pattern extend ct)).Pairwise
      beforeInCatalog := by
  refine List.Pairwise.filterMap (R := (· < ·)) _ ?_ (List.pairwise_lt_range 12)
  intro a a' hlt b hb b' hb'
  have h1 := matchAtRoot_eq_some (Option.mem_def.mp hb)
  have h2 := matchAtRoot_eq_some (Option.mem_def.mp hb')
  right
  refine ⟨?_, ?_⟩
  · rw [h1.2.2.1, h2.2.2.1]
  · rw [h1.2.1, h2.2.1]; exact hlt

/-- The catalog is strictly ordered by its own index function. -/
lemma chordTypes_pairwise_idx :
    chordTypes.Pairwise (fun a b => catalogIdx a < catalogIdx b) := by
  decide

/-- The selected template list inherits the catalog's strict index order. -/
lemma typesForFilter_pairwise (chordId : String) :
    (typesForFilter chordId).Pairwise (fun a b => catalogIdx a < catalogIdx b) := by
  unfold typesForFilter
  split
  · exact chordTypes_pairwise_idx
  · exact chordTypes_pairwise_idx.filter _

/-- The whole matcher output is ordered by `beforeInCatalog`: catalog
order on templates, ascending roots within a template. -/
lemma availableChords_pairwise (pattern : List Nat) (chordId : String)
    (extend : Bool) :
    (availableChordsForPattern pattern chordId extend).Pairwise
      beforeInCatalog := by
  unfold availableChordsForPattern
  rw [List.pairwise_flatMap]
  refine ⟨fun ct _ => perTemplate_pairwise pattern extend ct, ?_⟩
  refine (typesForFilter_pairwise chordId).imp ?_
  intro a b hab x hx y hy
  obtain ⟨ra, -, hxa⟩ := List.mem_filterMap.mp hx
  obtain ⟨rb, -, hyb⟩ := List.mem_filterMap.mp hy
  have h1 := matchAtRoot_eq_some hxa
  have h2 := matchAtRoot_eq_some hyb
  left
  rw [h1.2.2.1, h2.2.2.1]
  exact hab

/-! ### C1 -/

/-- C1: ChordMatcher soundness — every `MatchedChord` emitted by
`availableChordsForPattern` has its root present in the pattern and every
transposed note `(root + i) % 12` of its (possibly extended) interval list
present in the pattern; and the output is emitted in catalog-template
order with roots ascending within a template. -/
theorem chordMatcher_sound_ordered (P : List Nat) (f : String) (e : Bool)
    (m : MatchedChord) (hm : m ∈ availableChordsForPattern P f e) :
    (P.getD m.root 0 ≠ 0 ∧
     m.notes = (getExtendedIntervals m.type.intervals e).map
       (fun i => (m.root + i) % 12) ∧
     ∀ i ∈ getExtendedIntervals m.type.intervals e,
       P.getD ((m.root + i) % 12) 0 ≠ 0) ∧
    (availableChordsForPattern P f e).Pairwise beforeInCatalog := by
  obtain ⟨ct, hct, root, hroot12, hsome⟩ := mem_availableChords.mp hm
  obtain ⟨hp, hroot, htype, hnotes, hall, hext⟩ := matchAtRoot_eq_some hsome
  refine ⟨⟨?_, ?_, ?_⟩, availableChords_pairwise P f e⟩
  · rw [hroot]; exact hp
  · rw [hnotes, htype, hroot]
  · intro i hi
    apply hall
    rw [htype] at hi
    rw [hnotes, hroot]
    exact List.mem_map_of_mem _ hi

/-- Witness for C1 at the `{0,4,7}` pattern and the major-triad match on
the tonic. -/
theorem chordMatcher_sound_ordered_witness :
    triadAtSa ∈ availableChordsForPattern pat047 "major" false ∧
    ((pat047.getD triadAtSa.root 0 ≠ 0 ∧
      triadAtSa.notes = (getExtendedIntervals triadAtSa.type.intervals false).map
        (fun i => (triadAtSa.root + i) % 12) ∧
      ∀ i ∈ getExtendedIntervals triadAtSa.type.intervals false,
        pat047.getD ((triadAtSa.root + i) % 12) 0 ≠ 0) ∧
     (availableChordsForPattern pat047 "major" false).Pairwise beforeInCatalog) :=
  ⟨by decide, chordMatcher_sound_ordered pat047 "major" false triadAtSa (by decide)⟩

/-! ### C2 -/

/-- C2: the extension rule — `getExtendedIntervals` returns the base list
unchanged when extension is off or the list has fewer than 3 elements, and
otherwise appends the single value `(max + 3) % 12`; an emitted match's
`isExtended` is true exactly when the flag is on and the interval list
used is longer than the template's base list, which can happen even when
the appended offset duplicates an existing one (dim7 appends `0`). -/
theorem extensionRule_isExtended (B1 B2 P : List Nat) (f : String) (e : Bool)
    (m : MatchedChord) (h1 : e = false ∨ B1.length < 3) (h2 : 3 ≤ B2.length)
    (hm : m ∈ availableChordsForPattern P f e) :
    getExtendedIntervals B1 e = B1 ∧
    getExtendedIntervals B2 true = B2 ++ [(listMax B2 + 3) % 12] ∧
    (m.isExtended = true ↔ e = true ∧
      (getExtendedIntervals m.type.intervals e).length > m.type.intervals.length) ∧
    getExtendedIntervals [0, 3, 6, 9] true = [0, 3, 6, 9, 0] ∧
    extendedDim7AtSa ∈ availableChordsForPattern onesPattern "dim7" true ∧
    extendedDim7AtSa.isExtended = true := by
  refine ⟨?_, ?_, ?_, by decide, by decide, by decide⟩
  · unfold getExtendedIntervals
    exact if_pos h1
  · unfold getExtendedIntervals
    rw [if_neg]
    simp only [not_or]
    exact ⟨by simp, by omega⟩
  · obtain ⟨ct, hct, root, hroot12, hsome⟩ := mem_availableChords.mp hm
    obtain ⟨-, -, htype, -, -, hext⟩ := matchAtRoot_eq_some hsome
    rw [hext, htype]
    simp [Bool.and_eq_true, decide_eq_true_iff]

/-- Witness for C2 with extension on: a short list is passed through, a
triad gets `(7 + 3) % 12 = 10` appended, and the extended dim7 match on
the all-present pattern is flagged extended. -/
theorem extensionRule_isExtended_witness :
    ((true : Bool) = false ∨ ([0, 7] : List Nat).length < 3) ∧
    3 ≤ ([0, 4, 7] : List Nat).length ∧
    extendedDim7AtSa ∈ availableChordsForPattern onesPattern "dim7" true ∧
    (getExtendedIntervals [0, 7] true = [0, 7] ∧
     getExtendedIntervals [0, 4, 7] true = [0, 4, 7] ++ [(listMax [0, 4, 7] + 3) % 12] ∧
     (extendedDim7AtSa.isExtended = true ↔ (true : Bool) = true ∧
       (getExtendedIntervals extendedDim7AtSa.type.intervals true).length >
         extendedDim7AtSa.type.intervals.length) ∧
     getExtendedIntervals [0, 3, 6, 9] true = [0, 3, 6, 9, 0] ∧
     extendedDim7AtSa ∈ availableChordsForPattern onesPattern "dim7" true ∧
     extendedDim7AtSa.isExtended = true) :=
  ⟨by decide, by decide, by decide,
   extensionRule_isExtended [0, 7] [0, 4, 7] onesPattern "dim7" true
     extendedDim7AtSa (by decide) (by decide) (by decide)⟩

/-! ### C7 -/

/-- C7 counterexample: the extended diminished-seventh match on the
all-present pattern has noteSet `[0, 3, 6, 9, 0]`, which repeats pitch
class 0, so not every emitted `MatchedChord` has pairwise-distinct notes. -/
theorem noteSet_distinct_counterexample :
    extendedDim7AtSa ∈ availableChordsForPattern onesPattern "dim7" true ∧
    extendedDim7AtSa.notes = [0, 3, 6, 9, 0] ∧
    ¬ extendedDim7AtSa.notes.Nodup := by
  decide

/-- C7 amended: every `MatchedChord` produced without extension has
pairwise-distinct noteSet pitch classes (under extension the synthesized
interval may duplicate an existing one and repeat a pitch class). -/
theorem noteSet_distinct_basic (P : List Nat) (f : String) (m : MatchedChord)
    (hm : m ∈ availableChordsForPattern P f false) : m.notes.Nodup := by
  obtain ⟨ct, hct, root, hroot12, hsome⟩ := mem_availableChords.mp hm
  obtain ⟨-, -, -, hnotes, -, -⟩ := matchAtRoot_eq_some hsome
  have hcat := catalog_intervals_ok ct (typesForFilter_mem hct)
  rw [hnotes, getExtendedIntervals_false]
  exact List.Nodup.map_on
    (fun x hx y hy hxy => transpose_mod_inj (hcat.2 x hx) (hcat.2 y hy) hxy)
    hcat.1

/-- Witness for the amended C7 at the `{0,4,7}` pattern and the tonic
major triad. -/
theorem noteSet_distinct_basic_witness :
    triadAtSa ∈ availableChordsForPattern pat047 "major" false ∧
    triadAtSa.notes.Nodup :=
  ⟨by decide, noteSet_distinct_basic pat047 "major" triadAtSa (by decide)⟩

/-! ### C8 -/

/-- C8 counterexample: on the major-pentatonic pattern `{0, 2, 4, 7, 9}`
the major-template matcher emits a match at root 0 only — in particular no
match at root 4 (its triad needs the absent pitch classes 8 and 11), so
the claimed root set `{0, 4, 7}` is wrong. -/
theorem pentatonic_major_counterexample :
    (availableChordsForPattern pentPattern "major" false).map (·.root) = [0] ∧
    ¬ ∃ m ∈ availableChordsForPattern pentPattern "major" false, m.root = 4 := by
  decide

/-- C8 amended: on the major-pentatonic pattern `{0, 2, 4, 7, 9}`,
`availableChordsForPattern(pattern, "major", false)` returns exactly one
match, the major triad `{0, 4, 7}` at root 0. -/
theorem pentatonic_major_matches :
    availableChordsForPattern pentPattern "major" false = [triadAtSa] := by
  decide

/-! ### C9 -/

/-- C9: `attachWesternNames` with an absent tonic passes the chord list
through unchanged; with tonic `t` it keeps every chord and attaches
`"{rootWesternName}{quality}: {note1} - {note2} - ..."` built from the
flat-spelling table indexed at `(pitch + t) % 12` and the fixed per-id
quality suffix (template display name for unknown ids); in particular
tonic 0 on the root-0 major chord `[0, 4, 7]` yields `"C: C - E - G"`. -/
theorem westernNames_annotate (chords : List MatchedChord) (t : Nat) :
    attachWesternNames chords none = chords.map (fun c => ⟨c, none⟩) ∧
    (attachWesternNames chords (some t)).map (·.chord) = chords ∧
    (∀ x ∈ attachWesternNames chords (some t),
      x.westernName = some (westernNotesFlat.getD ((x.chord.root + t) % 12) "" ++
        qualityFor x.chord.type ++ ": " ++
        String.intercalate " - "
          (x.chord.notes.map (fun n => westernNotesFlat.getD ((n + t) % 12) "")))) ∧
    attachWesternNames [triadAtSa] (some 0) = [⟨triadAtSa, some "C: C - E - G"⟩] ∧
    attachWesternNames [weirdChordAtSa] (some 0) =
      [⟨weirdChordAtSa, some "CWeird: C"⟩] := by
  refine ⟨rfl, ?_, ?_, by decide, by decide⟩
  · simp only [attachWesternNames, List.map_map]
    exact List.map_id _
  · intro x hx
    simp only [attachWesternNames, List.mem_map] at hx
    obtain ⟨c, hc, rfl⟩ := hx
    rfl

/-! ### C10 -/

/-- C10: `filterChordsByNote` with a null/absent selected note returns the
list unchanged; with any mode string other than `'any'` (not only
`'root'`) it keeps exactly the chords whose root equals the selected note;
with mode `'any'` it keeps exactly the chords whose noteSet contains the
selected note. -/
theorem filterByNote_fallback (chords : List MatchedChord) (sel : Int)
    (mode : String) (hmode : mode ≠ "any") :
    filterChordsByNote chords none mode = chords ∧
    filterChordsByNote chords (some sel) mode =
      chords.filter (fun c => (c.root : Int) == sel) ∧
    filterChordsByNote chords (some sel) "any" =
      chords.filter (fun c => c.notes.any (fun n => (n : Int) == sel)) := by
  refine ⟨rfl, ?_, rfl⟩
  simp only [filterChordsByNote, if_neg hmode]

/-- Witness for C10 with the unrecognized mode string `"wat"`. -/
theorem filterByNote_fallback_witness :
    ("wat" : String) ≠ "any" ∧
    (filterChordsByNote [triadAtSa] none "wat" = [triadAtSa] ∧
     filterChordsByNote [triadAtSa] (some 0) "wat" =
       [triadAtSa].filter (fun c => (c.root : Int) == 0) ∧
     filterChordsByNote [triadAtSa] (some 0) "any" =
       [triadAtSa].filter (fun c => c.notes.any (fun n => (n : Int) == 0))) :=
  ⟨by decide, filterByNote_fallback [triadAtSa] 0 "wat" (by decide)⟩

/-! ### Helper lemmas for the custom matcher -/

/-- The truncated remainder and the Euclidean remainder agree modulo 12. -/
lemma tmod_twelve_emod (v : Int) : v.tmod 12 % 12 = v % 12 := by
  rw [Int.tmod_def]
  have h : v - 12 * v.tdiv 12 = v + -(v.tdiv 12) * 12 := by ring
  rw [h, Int.add_mul_emod_self]

/-- The JS normalization `((v % 12) + 12) % 12` computes the Euclidean
remainder `v mod 12`. -/
lemma normalizePc_eq_emod (v : Int) : (normalizePc v : Int) = v % 12 := by
  unfold normalizePc
  rw [Int.toNat_of_nonneg (Int.emod_nonneg _ (by norm_num))]
  have h : v.tmod 12 + 12 = v.tmod 12 + 1 * 12 := by ring
  rw [h, Int.add_mul_emod_self, tmod_twelve_emod]

/-- Unfolding of the note-presence test. -/
lemma noteOk_iff (pattern : List Nat) (i : Option Nat) :
    noteOk pattern i = true ↔ ∃ n, i = some n ∧ pattern.getD n 0 ≠ 0 := by
  cases i <;> simp [noteOk]

/-- Membership in the custom matcher output, fully characterized. -/
lemma customFindMatches_mem (pattern : List Nat) (pcs : List (Option Nat))
    (m : CustomMatch) :
    m ∈ customFindMatches pattern pcs ↔
      m.root < 12 ∧
      m.rootName = swarNames.getD m.root "" ∧
      m.notes = pcs.map (fun iv => iv.map (fun x => (m.root + x) % 12)) ∧
      ∀ i ∈ m.notes, ∃ n, i = some n ∧ pattern.getD n 0 ≠ 0 := by
  simp only [customFindMatches, List.mem_filterMap, List.mem_range]
  constructor
  · rintro ⟨root, hroot, heq⟩
    split at heq
    · next hall =>
      cases heq
      refine ⟨hroot, rfl, rfl, ?_⟩
      intro i hi
      exact (noteOk_iff pattern i).mp (List.all_eq_true.mp hall i hi)
    · exact absurd heq (by simp)
  · rintro ⟨hroot, hname, hnotes, hall⟩
    refine ⟨m.root, hroot, ?_⟩
    have hcond : (pcs.map (fun iv => iv.map (fun x => (m.root + x) % 12))).all
        (noteOk pattern) = true := by
      apply List.all_eq_true.mpr
      intro i hi
      apply (noteOk_iff pattern i).mpr
      apply hall
      rw [hnotes]
      exact hi
    simp only [hcond, if_pos]
    cases m with
    | mk root rootName notes =>
      simp only at hname hnotes
      rw [hname, hnotes]

/-! ### C4 -/

/-- C4: the custom matcher normalizes each supplied integer to
`((v mod 12) + 12) mod 12` — the Euclidean remainder `v mod 12` — and a
root `r` (tried for all of `0..11`, whether or not `r` itself is in the
pattern) matches iff every normalized interval transposed by `r` is
present; for pattern `{0,4,7}` and intervals `[0,4,7,12]` root 0 matches
and roots 4 and 7 do not (demonstrated through the full root list `[0]`);
the `onlyGa` conjunct shows a matching root whose own pitch class is
absent from the pattern. -/
theorem customMatcher_roots (pattern : List Nat) (ivs : List Int) (r : Nat)
    (hne : ivs ≠ []) :
    ((∃ m ∈ customFindMatches pattern
        (ivs.map (fun v => jsNormalizePc (JVal.num v))), m.root = r) ↔
      (r < 12 ∧ ∀ v ∈ ivs, pattern.getD ((r + normalizePc v) % 12) 0 ≠ 0)) ∧
    (∀ v ∈ ivs, (normalizePc v : Int) = v % 12) ∧
    (customFindMatches pat047
      ([0, 4, 7, 12].map (fun v => jsNormalizePc (JVal.num v)))).map (·.root) = [0] ∧
    (customFindMatches onlyGaPattern
      ([4].map (fun v => jsNormalizePc (JVal.num v)))).map (·.root) = [0] ∧
    onlyGaPattern.getD 0 0 = 0 := by
  refine ⟨?_, fun v _ => normalizePc_eq_emod v, by decide, by decide, by decide⟩
  constructor
  · rintro ⟨m, hm, rfl⟩
    obtain ⟨hroot, -, hnotes, hall⟩ := (customFindMatches_mem _ _ m).mp hm
    refine ⟨hroot, ?_⟩
    intro v hv
    have hmem : some ((m.root + normalizePc v) % 12) ∈ m.notes := by
      rw [hnotes]
      simp only [List.map_map, List.mem_map]
      exact ⟨v, hv, rfl⟩
    obtain ⟨n, hn, hp⟩ := hall _ hmem
    cases hn
    exact hp
  · rintro ⟨hr, hall⟩
    refine ⟨⟨r, swarNames.getD r "",
      (ivs.map (fun v => jsNormalizePc (JVal.num v))).map
        (fun iv => iv.map (fun x => (r + x) % 12))⟩, ?_, rfl⟩
    apply (customFindMatches_mem _ _ _).mpr
    refine ⟨hr, rfl, rfl, ?_⟩
    intro i hi
    simp only [List.map_map, List.mem_map] at hi
    obtain ⟨v, hv, rfl⟩ := hi
    exact ⟨(r + normalizePc v) % 12, rfl, hall v hv⟩

/-- Witness for C4 at pattern `{0,4,7}`, intervals `[0,4,7,12]`, root 0. -/
theorem customMatcher_roots_witness :
    ([0, 4, 7, 12] : List Int) ≠ [] ∧
    (((∃ m ∈ customFindMatches pat047
        (([0, 4, 7, 12] : List Int).map (fun v => jsNormalizePc (JVal.num v))),
        m.root = 0) ↔
      (0 < 12 ∧ ∀ v ∈ ([0, 4, 7, 12] : List Int),
        pat047.getD ((0 + normalizePc v) % 12) 0 ≠ 0)) ∧
    (∀ v ∈ ([0, 4, 7, 12] : List Int), (normalizePc v : Int) = v % 12) ∧
    (customFindMatches pat047
      ([0, 4, 7, 12].map (fun v => jsNormalizePc (JVal.num v)))).map (·.root) = [0] ∧
    (customFindMatches onlyGaPattern
      ([4].map (fun v => jsNormalizePc (JVal.num v)))).map (·.root) = [0] ∧
    onlyGaPattern.getD 0 0 = 0) :=
  ⟨by decide, customMatcher_roots pat047 [0, 4, 7, 12] 0 (by decide)⟩

/-! ### C5 -/

/-- A `NaN` interval entry (non-numeric input) makes every root fail: the
transposed `NaN` note is never present, so no match is pushed for any
pattern. -/
lemma customFindMatches_of_nan {pattern : List Nat} {pcs : List (Option Nat)}
    (h : none ∈ pcs) : customFindMatches pattern pcs = [] := by
  unfold customFindMatches
  apply List.filterMap_eq_nil_iff.mpr
  intro root _
  simp only
  rw [if_neg]
  intro hall
  have hbad : noteOk pattern none = true := by
    apply List.all_eq_true.mp hall none
    simp only [List.mem_map]
    exact ⟨none, h, rfl⟩
  simp [noteOk] at hbad

/-- C5 counterexample: a non-empty interval array containing a non-numeric
entry is NOT rejected with `InvalidInput` — the route succeeds with 200 and
three empty match lists (here even on an all-present raga). -/
theorem customValidation_counterexample :
    customMatchesRoute testRagaOnes (some [JVal.str "x"]) =
      Except.ok ⟨[], [], []⟩ ∧
    ∀ msg, customMatchesRoute testRagaOnes (some [JVal.str "x"]) ≠
      Except.error msg := by
  refine ⟨rfl, ?_⟩
  intro msg h
  rw [show customMatchesRoute testRagaOnes (some [JVal.str "x"]) =
      Except.ok ⟨[], [], []⟩ from rfl] at h
  exact absurd h (by simp)

/-- C5 amended: the custom-match operation fails with `InvalidInput` when
the interval list is absent/not an array or empty; every non-empty list —
whether or not its entries are numeric — succeeds and returns match
results for all three patterns; a list containing a non-numeric entry
succeeds with all three match lists empty (no numeric check is made). -/
theorem customValidation_amended (r : Raga) (l : List JVal) (s : String)
    (hne : l ≠ []) :
    customMatchesRoute r none = Except.error "intervalsAbs required" ∧
    customMatchesRoute r (some []) = Except.error "intervalsAbs required" ∧
    customMatchesRoute r (some l) =
      Except.ok ⟨customFindMatches r.aarohPattern (l.map jsNormalizePc),
                 customFindMatches r.avrohPattern (l.map jsNormalizePc),
                 customFindMatches r.notePattern (l.map jsNormalizePc)⟩ ∧
    (JVal.str s ∈ l → customMatchesRoute r (some l) =
      Except.ok ⟨[], [], []⟩) := by
  have hlen : ¬ l.length = 0 := fun h => hne (List.eq_nil_of_length_eq_zero h)
  have hroute : customMatchesRoute r (some l) =
      Except.ok ⟨customFindMatches r.aarohPattern (l.map jsNormalizePc),
                 customFindMatches r.avrohPattern (l.map jsNormalizePc),
                 customFindMatches r.notePattern (l.map jsNormalizePc)⟩ := by
    simp only [customMatchesRoute, if_neg hlen]
  refine ⟨rfl, rfl, hroute, ?_⟩
  intro hs
  have hnan : none ∈ l.map jsNormalizePc := by
    simp only [List.mem_map]
    exact ⟨JVal.str s, hs, rfl⟩
  rw [hroute, customFindMatches_of_nan hnan, customFindMatches_of_nan hnan,
    customFindMatches_of_nan hnan]

/-- Witness for the amended C5 on the all-present raga with the valid
list `[0]` and, vacuously, the string probe `"x"`. -/
theorem customValidation_amended_witness :
    ([JVal.num 0] : List JVal) ≠ [] ∧
    (customMatchesRoute testRagaOnes none =
      Except.error "intervalsAbs required" ∧
     customMatchesRoute testRagaOnes (some []) =
      Except.error "intervalsAbs required" ∧
     customMatchesRoute testRagaOnes (some [JVal.num 0]) =
      Except.ok ⟨customFindMatches testRagaOnes.aarohPattern
                   ([JVal.num 0].map jsNormalizePc),
                 customFindMatches testRagaOnes.avrohPattern
                   ([JVal.num 0].map jsNormalizePc),
                 customFindMatches testRagaOnes.notePattern
                   ([JVal.num 0].map jsNormalizePc)⟩ ∧
     (JVal.str "x" ∈ ([JVal.num 0] : List JVal) →
      customMatchesRoute testRagaOnes (some [JVal.num 0]) =
        Except.ok ⟨[], [], []⟩)) :=
  ⟨by decide, customValidation_amended testRagaOnes [JVal.num 0] "x" (by decide)⟩

/-! ### C3 -/

/-- Characterization of `exactMatch`: the pattern holds `1` exactly at the
positions of `includeSet ∪ {0}` and `0` at every other position. -/
lemma exactMatch_iff (P S : List Nat) :
    exactMatch P S = true ↔
      ∀ i < P.length, P.getD i 0 = if i = 0 ∨ i ∈ S then 1 else 0 := by
  unfold exactMatch
  rw [List.all_eq_true, List.forall_mem_enum]
  constructor
  · intro h i hi
    have hx := h i hi
    dsimp only at hx
    rw [beq_iff_eq] at hx
    rw [List.getD_eq_getElem _ _ hi]
    exact hx
  · intro h i hi
    dsimp only
    rw [beq_iff_eq]
    have hx := h i hi
    rw [List.getD_eq_getElem _ _ hi] at hx
    exact hx

/-- With a non-empty include set, exact mode reduces the inclusion stage
to the `exactMatch` filter. -/
lemma includeStage_exact (ragas : List Raga) (S : List Nat) (hS : S ≠ []) :
    includeStageCombined ragas "exact" S =
      ragas.filter (fun r => exactMatch r.notePattern S) := by
  unfold includeStageCombined
  rw [if_pos (List.length_pos.mpr hS), if_pos rfl]

/-- C3 counterexample: exclude sets are NOT ignored under exact mode — on
the single raga with pattern `{0,4,7}`, include set `{4,7}` and exclude
set `{4}`, the exact-mode result changes (it empties) when the exclude set
is supplied. -/
theorem exactSearch_counterexample :
    combinedNoteStage ragas047 "exact" [4, 7] [] = ragas047 ∧
    combinedNoteStage ragas047 "exact" [4, 7] [4] = [] ∧
    combinedNoteStage ragas047 "exact" [4, 7] [4] ≠
      combinedNoteStage ragas047 "exact" [4, 7] [] := by
  decide

/-- C3 amended: with a non-empty include set `S`, exact mode keeps exactly
the ragas whose pattern equals `S ∪ {0}` as a set (1 on `S ∪ {0}`, 0
elsewhere); the exclude set is still applied afterwards: an exclude set
disjoint from `S ∪ {0}` leaves the exact-mode result unchanged, while one
meeting `S ∪ {0}` removes every match. -/
theorem exactSearch_excludes (ragas : List Raga) (S E : List Nat)
    (hS : S ≠ []) (hlen : ∀ r ∈ ragas, r.notePattern.length = 12)
    (hE : ∀ x ∈ E, x < 12) :
    combinedNoteStage ragas "exact" S [] =
      ragas.filter (fun r =>
        decide (∀ i < 12,
          r.notePattern.getD i 0 = if i = 0 ∨ i ∈ S then 1 else 0)) ∧
    ((∀ x ∈ E, ¬(x = 0 ∨ x ∈ S)) →
      combinedNoteStage ragas "exact" S E =
        combinedNoteStage ragas "exact" S []) ∧
    ((∃ x ∈ E, (x = 0 ∨ x ∈ S)) →
      combinedNoteStage ragas "exact" S E = []) := by
  have hbase : combinedNoteStage ragas "exact" S [] =
      ragas.filter (fun r => exactMatch r.notePattern S) := by
    unfold combinedNoteStage
    rw [if_neg (by simp), includeStage_exact ragas S hS]
  refine ⟨?_, ?_, ?_⟩
  · rw [hbase]
    apply List.filter_congr
    intro r hr
    have h12 := hlen r hr
    rw [Bool.eq_iff_iff, decide_eq_true_iff, exactMatch_iff, h12]
  · intro hdisj
    by_cases hE0 : E.length > 0
    · unfold combinedNoteStage
      rw [if_pos hE0, if_neg (by simp), includeStage_exact ragas S hS]
      apply List.filter_eq_self.mpr
      intro r hr
      have hmem := List.mem_filter.mp hr
      have hEM := (exactMatch_iff _ _).mp hmem.2
      have h12 := hlen r hmem.1
      apply List.all_eq_true.mpr
      intro i hi
      have hi12 : i < 12 := hE i hi
      have hlt : i < r.notePattern.length := by rw [h12]; exact hi12
      have hval : r.notePattern.getD i 0 = 0 := by
        have hx := hEM i hlt
        rwa [if_neg (hdisj i hi)] at hx
      rw [List.getD_eq_getElem _ _ hlt] at hval
      rw [beq_iff_eq, List.get?_eq_getElem?, List.getElem?_eq_getElem hlt, hval]
    · have hEnil : E = [] := by
        cases E with
        | nil => rfl
        | cons a t => exact absurd (by simp) hE0
      rw [hEnil]
  · rintro ⟨x, hxE, hxS⟩
    have hE0 : E.length > 0 := List.length_pos.mpr (List.ne_nil_of_mem hxE)
    unfold combinedNoteStage
    rw [if_pos hE0, includeStage_exact ragas S hS]
    apply List.filter_eq_nil_iff.mpr
    intro r hr hall
    have hmem := List.mem_filter.mp hr
    have h12 := hlen r hmem.1
    have hx12 : x < 12 := hE x hxE
    have hlt : x < r.notePattern.length := by rw [h12]; exact hx12
    have hval : r.notePattern.getD x 0 = 1 := by
      have hx := (exactMatch_iff _ _).mp hmem.2 x hlt
      rwa [if_pos hxS] at hx
    rw [List.getD_eq_getElem _ _ hlt] at hval
    have hsome := List.all_eq_true.mp hall x hxE
    rw [beq_iff_eq, List.get?_eq_getElem?, List.getElem?_eq_getElem hlt,
      hval] at hsome
    exact absurd hsome (by simp)

/-- Witness for the amended C3 on the `{0,4,7}` raga with include set
`{4,7}` and the disjoint exclude set `{11}`. -/
theorem exactSearch_excludes_witness :
    (([4, 7] : List Nat) ≠ [] ∧ (∀ r ∈ ragas047, r.notePattern.length = 12) ∧
      (∀ x ∈ ([11] : List Nat), x < 12)) ∧
    (combinedNoteStage ragas047 "exact" [4, 7] [] =
      ragas047.filter (fun r =>
        decide (∀ i < 12,
          r.notePattern.getD i 0 = if i = 0 ∨ i ∈ ([4, 7] : List Nat) then 1 else 0)) ∧
    ((∀ x ∈ ([11] : List Nat), ¬(x = 0 ∨ x ∈ ([4, 7] : List Nat))) →
      combinedNoteStage ragas047 "exact" [4, 7] [11] =
        combinedNoteStage ragas047 "exact" [4, 7] []) ∧
    ((∃ x ∈ ([11] : List Nat), (x = 0 ∨ x ∈ ([4, 7] : List Nat))) →
      combinedNoteStage ragas047 "exact" [4, 7] [11] = [])) :=
  ⟨⟨by decide, by decide, by decide⟩,
   exactSearch_excludes ragas047 [4, 7] [11] (by decide) (by decide) (by decide)⟩

/-! ### C6 -/

/-- Splitting a list by a boolean predicate preserves total length. -/
lemma length_filter_not_add {α : Type} (l : List α) (p : α → Bool) :
    (l.filter (fun c => !p c)).length + (l.filter p).length = l.length := by
  induction l with
  | nil => rfl
  | cons c l ih =>
    by_cases h : p c <;> simp [List.filter_cons, h] <;> omega

/-- Filtering the catalog by one of its own ids selects that template
alone (all catalog ids are distinct and none is `'all'` or empty). -/
lemma typesForFilter_ids : ∀ ct ∈ chordTypes, typesForFilter ct.id = [ct] := by
  decide

/-- Running the matcher with a single catalog template id yields exactly
that template's root scan. -/
lemma avail_for_id (P : List Nat) (e : Bool) {ct : ChordType}
    (h : ct ∈ chordTypes) :
    availableChordsForPattern P ct.id e =
      (List.range 12).filterMap (matchAtRoot P e ct) := by
  unfold availableChordsForPattern
  rw [typesForFilter_ids ct h]
  simp

/-- The template filter `'all'` selects the whole catalog. -/
lemma avail_all (P : List Nat) (e : Bool) :
    availableChordsForPattern P "all" e =
      chordTypes.flatMap
        (fun ct => (List.range 12).filterMap (matchAtRoot P e ct)) := by
  unfold availableChordsForPattern typesForFilter
  rw [if_pos (Or.inl rfl)]

/-- The aggregates fold over any catalog-template list equals the filtered
lengths of the corresponding concatenated per-template scans. -/
lemma aggregate_foldl (P : List Nat) (e : Bool) (ts : List ChordType)
    (hts : ∀ ct ∈ ts, ct ∈ chordTypes) (acc : Nat × Nat) :
    ts.foldl (aggregateStep P e) acc =
      (acc.1 + ((ts.flatMap
          (fun ct => (List.range 12).filterMap (matchAtRoot P e ct))).filter
            (fun c => !c.isExtended)).length,
       acc.2 + ((ts.flatMap
          (fun ct => (List.range 12).filterMap (matchAtRoot P e ct))).filter
            (fun c => c.isExtended)).length) := by
  induction ts generalizing acc with
  | nil => simp
  | cons ct ts ih =>
    rw [List.foldl_cons, ih (fun c hc => hts c (List.mem_cons_of_mem _ hc))]
    simp only [aggregateStep, avail_for_id P e (hts ct (List.mem_cons_self _ _)),
      List.flatMap_cons, List.filter_append, List.length_append]
    refine Prod.ext ?_ ?_ <;> dsimp only <;> omega

/-- C6: in combined direction mode the aggregate counts decompose the
single all-templates enumeration — `basic` counts the matches with
`isExtended = false`, `extended` those with `isExtended = true`, and
`basic + extended` equals the length of
`availableChordsForPattern(combinedPattern, "all", extend)`. -/
theorem aggregates_combined (r : Raga) (e : Bool) :
    (aggregatesRoute r false e).1 =
      ((availableChordsForPattern r.notePattern "all" e).filter
        (fun c => !c.isExtended)).length ∧
    (aggregatesRoute r false e).2 =
      ((availableChordsForPattern r.notePattern "all" e).filter
        (fun c => c.isExtended)).length ∧
    (aggregatesRoute r false e).1 + (aggregatesRoute r false e).2 =
      (availableChordsForPattern r.notePattern "all" e).length := by
  have hroute : aggregatesRoute r false e =
      chordTypes.foldl (aggregateStep r.notePattern e) (0, 0) := by
    unfold aggregatesRoute
    simp
  rw [hroute, aggregate_foldl r.notePattern e chordTypes (fun _ h => h) (0, 0),
    avail_all]
  dsimp only
  refine ⟨by omega, by omega, ?_⟩
  have hsplit := length_filter_not_add
    (chordTypes.flatMap
      (fun ct => (List.range 12).filterMap (matchAtRoot r.notePattern e ct)))
    (fun c => c.isExtended)
  omega

end Pakad
